import Mathlib

/-!
Verification of the weaveflow pipeline engine core against its
natural-language specification.

The Python sources are shallowly embedded:

* Python `dict`s (whose keys are unique and whose lookups return the stored
  value) are modelled as association lists `List (String × α)` with
  first-match lookup `aGet`; insertion `dictInsert` overwrites in place like
  a Python dict assignment, and `dictUpdate` is `dict.update`.
* pandas objects are modelled structurally: a column (Series) is a list of
  values, a DataFrame is an association list of named columns, and
  `pd.concat([...], axis=1)` is list append.
* functions that raise are modelled in `Except`, with the relevant payload
  of the exception message (for example the sorted list of missing column
  names) as the error value.
-/

set_option linter.unusedVariables false

namespace Weaveflow

/-- Values carried by optional arguments and injected parameters. -/
abbrev Val := Int

/-- A pandas Series: the cell values of one column. -/
abbrev Col := List Int

/-- A Python `dict[str, str]` as an association list with unique keys. -/
abbrev Dict := List (String × String)

/-- A pandas DataFrame: ordered named columns. -/
abbrev Table := List (String × Col)

/-- Python `d.get(k)` on a dict: first entry with the key (keys are unique). -/
def aGet {α : Type} (k : String) : List (String × α) → Option α
  | [] => none
  | p :: ps => if p.1 = k then some p.2 else aGet k ps

/-- Python `d.get(k)` on a dict with `Nat` keys (object identities). -/
def aGetN {α : Type} (k : Nat) : List (Nat × α) → Option α
  | [] => none
  | p :: ps => if p.1 = k then some p.2 else aGetN k ps

/-- The keys of an association list. -/
def keysOf {α : Type} (d : List (String × α)) : List String :=
  d.map Prod.fst

/-- Python `d[k] = v` on a dict: overwrite in place if the key exists,
append otherwise. -/
def dictInsert {α : Type} (d : List (String × α)) (k : String) (v : α) :
    List (String × α) :=
  if d.any (fun p => p.1 = k) then
    d.map (fun p => if p.1 = k then (k, v) else p)
  else
    d ++ [(k, v)]

/-- Python `base.update(new)` on dicts. -/
def dictUpdate {α : Type} (base new : List (String × α)) : List (String × α) :=
  new.foldl (fun acc p => dictInsert acc p.1 p.2) base

/-- Python `d.pop(k)` on a dict (the removal effect). -/
def dictErase {α : Type} (d : List (String × α)) (k : String) :
    List (String × α) :=
  d.filter (fun p => ¬ p.1 = k)

/-- The inverted dict, `\x7bv: k for k, v in name_map.items()}`.  For duplicate
values the later pair wins in Python, hence the `reverse` before the
first-match lookup. -/
def invDict (d : Dict) : Dict :=
  (d.map (fun p => (p.2, p.1))).reverse

/-- Model of `WeaveMeta` (src/weaveflow/_decorators/meta.py): the frozen descriptor a
`@weave` task carries.  `_meta_mapping = none` models the Python `None`
default. -/
structure WeaveMeta where
  _rargs : List String
  _oargs : List String
  _outputs : List String
  _params : List (String × Val)
  _meta_mapping : Option Dict
deriving DecidableEq

/-- Model of `PandasWeave._resolve_effective_names` (src/weaveflow/core/loom.py
lines 238-271): translate declared argument names to table column names.
`name_map.get(a, inv_map.get(a, a))` is rendered with `Option.getD`, whose
defaults are evaluated lazily here but are pure, matching Python's eager
evaluation of the default expression. -/
def resolve_effective_names (weave_meta : WeaveMeta)
    (required_args optional_args outputs : List String) :
    Dict × List String × List String × List String :=
  let name_map := weave_meta._meta_mapping.getD []
  let inv_map := invDict name_map
  let rargs_m := required_args.map
    (fun a => (aGet a name_map).getD ((aGet a inv_map).getD a))
  let oargs_m := optional_args.map
    (fun o => (aGet o name_map).getD ((aGet o inv_map).getD o))
  let outs_m := outputs.map (fun o => (aGet o name_map).getD o)
  (name_map, rargs_m, oargs_m, outs_m)

/-- Spec 4.2, `remap`, for one name: "look it up in `mapping` (forward); if
absent, look up in the inverse of `mapping`; if still absent, keep the name
unchanged."  Written from the spec's words, to be compared with
`resolve_effective_names`. -/
def remapNameSpec (mapping : Dict) (a : String) : String :=
  match aGet a mapping with
  | some v => v
  | none =>
    match aGet a (invDict mapping) with
    | some k => k
    | none => a

/-- Spec 4.2, `remap_outputs`, for one name: "forward-only lookup, identity
otherwise."  Written from the spec's words. -/
def remapOutputSpec (mapping : Dict) (o : String) : String :=
  match aGet o mapping with
  | some v => v
  | none => o

theorem aGet_getD_eq_remapNameSpec (m : Dict) (a : String) :
    (aGet a m).getD ((aGet a (invDict m)).getD a) = remapNameSpec m a := by
  unfold remapNameSpec
  cases aGet a m with
  | none =>
    cases aGet a (invDict m) with
    | none => rfl
    | some k => rfl
  | some v => rfl

theorem aGet_getD_eq_remapOutputSpec (m : Dict) (o : String) :
    (aGet o m).getD o = remapOutputSpec m o := by
  unfold remapOutputSpec
  cases aGet o m with
  | none => rfl
  | some v => rfl

theorem getD_remapOutputSpec_inv (m : Dict) (a : String) :
    (aGet a m).getD (remapOutputSpec (invDict m) a) = remapNameSpec m a := by
  rw [← aGet_getD_eq_remapOutputSpec]
  exact aGet_getD_eq_remapNameSpec m a

theorem aGet_eq_none_iff {α : Type} (k : String) (l : List (String × α)) :
    aGet k l = none ↔ ∀ p ∈ l, ¬ p.1 = k := by
  induction l with
  | nil => simp [aGet]
  | cons p ps ih =>
    by_cases h : p.1 = k
    · simp [aGet, h]
    · simp [aGet, h, ih]

theorem aGet_append {α : Type} (k : String) (l1 l2 : List (String × α)) :
    aGet k (l1 ++ l2) =
      match aGet k l1 with
      | some v => some v
      | none => aGet k l2 := by
  induction l1 with
  | nil => simp [aGet]
  | cons p ps ih =>
    by_cases h : p.1 = k
    · simp [aGet, h]
    · simp [aGet, h, ih]

/-- When keys are unique, lookup is insensitive to reversal. -/
theorem aGet_reverse {α : Type} (k : String) (l : List (String × α))
    (h : (keysOf l).Nodup) : aGet k l.reverse = aGet k l := by
  induction l with
  | nil => rfl
  | cons p ps ih =>
    simp only [keysOf, List.map_cons, List.nodup_cons] at h
    rw [List.reverse_cons, aGet_append, ih h.2]
    by_cases hpk : p.1 = k
    · have hnone : aGet k ps = none := by
        rw [aGet_eq_none_iff]
        intro q hq hqk
        apply h.1
        have hqp : q.1 = p.1 := by rw [hqk, hpk]
        rw [← hqp]
        exact List.mem_map.mpr ⟨q, hq, rfl⟩
      simp [aGet, hpk, hnone]
    · cases hget : aGet k ps with
      | none => simp [aGet, hpk, hget]
      | some v => simp [aGet, hpk, hget]

theorem aGet_of_mem {α : Type} {k : String} {v : α} {l : List (String × α)}
    (hk : (keysOf l).Nodup) (hmem : (k, v) ∈ l) : aGet k l = some v := by
  induction l with
  | nil => cases hmem
  | cons p ps ih =>
    simp only [keysOf, List.map_cons, List.nodup_cons] at hk
    rcases List.mem_cons.mp hmem with h | h
    · rw [← h]; simp [aGet]
    · have hne : ¬ p.1 = k := by
        intro hpk
        exact hk.1 (hpk ▸ List.mem_map.mpr ⟨(k, v), h, rfl⟩)
      simpa [aGet, hne] using ih hk.2 h

/-- On a mapping entry the forward lookup hits, so resolution follows it. -/
theorem remapNameSpec_forward (m : Dict) (k v : String)
    (hk : (keysOf m).Nodup) (hv : (k, v) ∈ m) :
    remapNameSpec m k = v := by
  unfold remapNameSpec
  rw [aGet_of_mem hk hv]

/-- A name that appears only as a mapping value is resolved through the
inverse lookup back to its key (the bidirectional part of the claim). -/
theorem remapNameSpec_backward (m : Dict) (k v : String)
    (hv : (k, v) ∈ m)
    (hnk : aGet v m = none)
    (hvals : (m.map Prod.snd).Nodup) :
    remapNameSpec m v = k := by
  unfold remapNameSpec
  rw [hnk]
  have hkeys : (keysOf (m.map (fun p => (p.2, p.1)))).Nodup := by
    unfold keysOf
    rw [List.map_map]
    exact hvals
  have hinv : aGet v (invDict m) = some k := by
    unfold invDict
    rw [aGet_reverse _ _ hkeys]
    exact aGet_of_mem hkeys (List.mem_map.mpr ⟨(k, v), hv, rfl⟩)
  rw [hinv]

/-- C1: for every task descriptor with a name mapping and every list of
declared input names, input-name resolution maps each name by forward lookup
in the mapping, then, if absent, by lookup in the inverse of the mapping,
and otherwise leaves the name unchanged; output names are resolved by
forward lookup only, identity otherwise. -/
theorem c1_resolve_effective_names_spec (weave_meta : WeaveMeta)
    (required_args optional_args outputs : List String) :
    resolve_effective_names weave_meta required_args optional_args outputs =
      (weave_meta._meta_mapping.getD [],
       required_args.map (remapNameSpec (weave_meta._meta_mapping.getD [])),
       optional_args.map (remapNameSpec (weave_meta._meta_mapping.getD [])),
       outputs.map (remapOutputSpec (weave_meta._meta_mapping.getD []))) := by
  unfold resolve_effective_names
  simp only [aGet_getD_eq_remapOutputSpec]
  simp only [getD_remapOutputSpec_inv]

/-! ## Execution model (`PandasWeave` / `Loom`, src/weaveflow/core/loom.py) -/

/-- Python `sorted(list(s))` for a set `s` of strings: ascending order, no
duplicates (the argument is deduplicated before sorting). -/
def sortStrings (l : List String) : List String :=
  l.insertionSort (· ≤ ·)

/-- What a weave task body can return: a whole DataFrame, a single
series-like value, or a tuple of series (Python `None`, the no-output
sentinel, is `Option.none` at the call site). -/
inductive CalcOutput where
  | frame (t : Table)
  | one (c : Col)
  | many (cs : List Col)
deriving DecidableEq

/-- Model of `PandasWeave.dump_to_frame` (loom.py lines 144-171).  A DataFrame result
is returned as it is, ignoring `outputs`; otherwise
`{outputs[0]: out}` when one output is declared, else
`dict(zip(outputs, out, strict=False))` (zip truncates).  The two
shape-mismatched combinations (a tuple under exactly one declared name, a
bare series under several) produce degenerate pandas frames and are
modelled as the empty frame; no theorem depends on them. -/
def dump_to_frame (outputs : List String) (calculation_output : CalcOutput) :
    Table :=
  match calculation_output with
  | .frame t => t
  | .one c =>
    match outputs with
    | [o] => [(o, c)]
    | _ => []
  | .many cs =>
    if outputs.length = 1 then [] else outputs.zip cs

/-- Model of `PandasWeave.check_intersection_columns_dataframe` (loom.py lines
173-193): `missing_cols = set(expected_cols) - set(df.columns)`, raising a
`KeyError` whose message carries `sorted(list(missing_cols))`.  The error
payload here is that sorted duplicate-free list. -/
def check_intersection_columns_dataframe (df : Table)
    (expected_cols : List String) : Except (List String) Unit :=
  let missing_cols := (expected_cols.filter (fun e => ¬ e ∈ keysOf df)).dedup
  if missing_cols = [] then .ok () else .error (sortStrings missing_cols)

/-- A `@weave`-decorated callable as the orchestrator sees it: its
`__name__` (preserved across `reweave` by `functools.wraps`), its Python
object identity (usable as a key of the `optionals` dict), its attached
`WeaveMeta`, and its body.  The body receives the required-argument
columns keyed by the original parameter names, the resolved optional
arguments and the injected parameters, exactly as
`weave_task(**rargs, **oargs, **params)` passes them; `none` models the
Python `None` no-output sentinel. -/
structure WeaveTask where
  name : String
  id : Nat
  _weave_meta : WeaveMeta
  body : List (String × Col) → List (String × Val) → List (String × Val) →
    Option CalcOutput

/-- The `optionals` constructor argument: a dict whose keys are task names
(strings) or task objects (identities) — disjoint key spaces, so two
association lists. -/
structure Optionals where
  byName : List (String × List (String × Val))
  byId : List (Nat × List (String × Val))

/-- Model of `PandasWeave._collect_optionals_for_task` (loom.py lines 209-236):
globals restricted to the declared optional names, then
`self.optionals.get(weave_name, {}) or self.optionals.get(weave_task, {})`
(the `or` falls through on an *empty* by-name entry as well as on an absent
one), overlaid with `dict.update`. -/
def collect_optionals_for_task (global_optionals : List (String × Val))
    (optionals : Optionals) (weave_name : String)
    (optional_args : List String) (task_id : Nat) : List (String × Val) :=
  let oargs := optional_args.filterMap
    (fun oarg => (aGet oarg global_optionals).map (fun v => (oarg, v)))
  let by_name := (aGet weave_name optionals.byName).getD []
  let task_optionals :=
    if by_name.isEmpty then (aGetN task_id optionals.byId).getD [] else by_name
  dictUpdate oargs task_optionals

/-- One entry of `weave_collector[weaveflow_name]`
(`PandasWeave._record_weave_run`, loom.py lines 297-326).  `delta_time`
(wall-clock duration) is not modelled. -/
structure LineageRec where
  outputs : List String
  rargs : List String
  oargs : List String
  params : List String
deriving DecidableEq

/-- The per-pipeline lineage collector `weave_collector[weaveflow_name]`. -/
abbrev Collector := List (String × LineageRec)

/-- Model of `PandasWeave._build_required_kwargs` (loom.py lines 273-295): map each
original parameter name to the column at its resolved name.  The preceding
column check guarantees the lookup succeeds; the `getD []` default is
unreachable under it. -/
def build_required_kwargs (df : Table) (required_args rargs_m : List String) :
    List (String × Col) :=
  (required_args.zip rargs_m).map (fun p => (p.1, (aGet p.2 df).getD []))

/-- Model of `PandasWeave._run_weave_task` (loom.py lines 362-417): collect
optionals, resolve names, validate columns, build kwargs, invoke the body,
record lineage, and hand back `(calculation_output, outs_m, weave_name)`
together with the updated collector. -/
def run_weave_task (db : Table) (collector : Collector)
    (global_optionals : List (String × Val)) (optionals : Optionals)
    (weave_task : WeaveTask) :
    Except (List String) (Option CalcOutput × List String × String × Collector) :=
  let weave_name := weave_task.name
  let weave_meta := weave_task._weave_meta
  let params := weave_meta._params
  let required_args := weave_meta._rargs
  let optional_args := weave_meta._oargs
  let outputs := weave_meta._outputs
  let oargs := collect_optionals_for_task global_optionals optionals
    weave_name optional_args weave_task.id
  match resolve_effective_names weave_meta required_args optional_args outputs with
  | (_, rargs_m, oargs_m, outs_m) =>
    match check_intersection_columns_dataframe db rargs_m with
    | .error missing => .error missing
    | .ok _ =>
      let rargs := build_required_kwargs db required_args rargs_m
      let calculation_output := weave_task.body rargs oargs params
      let collector' := dictInsert collector weave_name
        ⟨outs_m, rargs_m, oargs_m, params.map Prod.fst⟩
      .ok (calculation_output, outs_m, weave_name, collector')

/-- The orchestrator state during a run: the DataFrame and the lineage
collector for the current pipeline name. -/
structure RunState where
  database : Table
  collector : Collector
deriving DecidableEq

/-- The weave branch of the `Loom._run` loop body (loom.py lines 690-709,
identical to `PandasWeave.run`, lines 419-440): run the task; on the `None`
sentinel pop its lineage record and leave the table alone, otherwise extend
the table with `pd.concat([db, dump_to_frame(...)], axis=1)`. -/
def run_weave_step (st : RunState) (global_optionals : List (String × Val))
    (optionals : Optionals) (weave_task : WeaveTask) :
    Except (List String) RunState :=
  match run_weave_task st.database st.collector global_optionals optionals
      weave_task with
  | .error e => .error e
  | .ok (calculation_output, outputs, weave_name, collector') =>
    match calculation_output with
    | none => .ok ⟨st.database, dictErase collector' weave_name⟩
    | some out => .ok ⟨st.database ++ dump_to_frame outputs out, collector'⟩

/-- Model of `reweave` (src/weaveflow/_decorators/weave.py lines 119-146) at the
value level: a non-dict `meta` returns the original callable unchanged;
otherwise a fresh wrapper (new object identity, same `__name__` via
`functools.wraps`) carries `replace(weave_meta, _meta_mapping=dict(meta))`.
The defensive-copy/aliasing side is modelled separately with an explicit
heap (`reweaveH`). -/
def reweave (f : WeaveTask) (meta : Option Dict) (new_id : Nat) : WeaveTask :=
  match meta with
  | none => f
  | some m =>
    { f with id := new_id,
             _weave_meta := { f._weave_meta with _meta_mapping := some m } }

/-- Forward-or-identity renaming of a single column name. -/
def fwdName (m : Dict) (n : String) : String :=
  (aGet n m).getD n

/-- A table carrying the renamed columns instead of the originals. -/
def renameCols (m : Dict) (db : Table) : Table :=
  db.map (fun p => (fwdName m p.1, p.2))

/-! ## Generic lemmas about the dict operations -/

theorem sortStrings_sorted (l : List String) :
    (sortStrings l).Sorted (· ≤ ·) :=
  List.sorted_insertionSort _ l

theorem mem_sortStrings (l : List String) (x : String) :
    x ∈ sortStrings l ↔ x ∈ l :=
  (List.perm_insertionSort _ l).mem_iff

theorem sortStrings_nodup {l : List String} (h : l.Nodup) :
    (sortStrings l).Nodup :=
  ((List.perm_insertionSort _ l).nodup_iff).mpr h

theorem aGet_eq_none_of_not_any {α : Type} (d : List (String × α))
    (k : String) (h : ¬ (d.any fun q => decide (q.1 = k)) = true) :
    aGet k d = none := by
  rw [aGet_eq_none_iff]
  intro p hp hpk
  exact h (List.any_eq_true.mpr ⟨p, hp, by simp [hpk]⟩)

theorem aGet_overwrite_self {α : Type} (d : List (String × α)) (k : String)
    (v : α) (h : (d.any fun q => decide (q.1 = k)) = true) :
    aGet k (d.map (fun p => if p.1 = k then (k, v) else p)) = some v := by
  induction d with
  | nil => simp at h
  | cons p ps ih =>
    by_cases hpk : p.1 = k
    · simp [aGet, hpk]
    · have h' : (ps.any fun q => decide (q.1 = k)) = true := by
        simpa [List.any_cons, hpk] using h

      simp [aGet, hpk, ih h']

theorem aGet_overwrite_ne {α : Type} (d : List (String × α)) (k k' : String)
    (v : α) (hne : ¬ k' = k) :
    aGet k' (d.map (fun p => if p.1 = k then (k, v) else p)) = aGet k' d := by
  induction d with
  | nil => rfl
  | cons p ps ih =>
    by_cases hpk : p.1 = k
    · rw [List.map_cons, if_pos hpk]
      have hkk' : ¬ k = k' := fun h => hne h.symm
      have hp' : ¬ p.1 = k' := by rw [hpk]; exact hkk'
      simp [aGet, hkk', hp', ih]
    · rw [List.map_cons, if_neg hpk]
      by_cases hpk' : p.1 = k'
      · simp [aGet, hpk']
      · simp [aGet, hpk', ih]

theorem aGet_dictInsert_self {α : Type} (d : List (String × α)) (k : String)
    (v : α) : aGet k (dictInsert d k v) = some v := by
  unfold dictInsert
  by_cases hany : (d.any fun q => decide (q.1 = k)) = true
  · rw [if_pos hany]
    exact aGet_overwrite_self d k v hany
  · rw [if_neg hany, aGet_append, aGet_eq_none_of_not_any d k hany]
    simp [aGet]

theorem aGet_dictInsert_ne {α : Type} (d : List (String × α)) (k k' : String)
    (v : α) (hne : ¬ k' = k) : aGet k' (dictInsert d k v) = aGet k' d := by
  unfold dictInsert
  by_cases hany : (d.any fun q => decide (q.1 = k)) = true
  · rw [if_pos hany]
    exact aGet_overwrite_ne d k k' v hne
  · rw [if_neg hany, aGet_append]
    cases hget : aGet k' d with
    | none =>
      have hkk' : ¬ k = k' := fun h => hne h.symm
      simp [aGet, hkk']
    | some w => rfl

theorem aGet_dictErase_self {α : Type} (d : List (String × α)) (k : String) :
    aGet k (dictErase d k) = none := by
  rw [aGet_eq_none_iff]
  intro p hp
  have := List.of_mem_filter hp
  simpa using this

theorem aGet_dictErase_ne {α : Type} (d : List (String × α)) (k k' : String)
    (hne : ¬ k' = k) : aGet k' (dictErase d k) = aGet k' d := by
  induction d with
  | nil => rfl
  | cons p ps ih =>
    by_cases hpk : p.1 = k
    · have hp' : ¬ p.1 = k' := by rw [hpk]; exact fun h => hne h.symm
      have hdrop : dictErase (p :: ps) k = dictErase ps k := by
        simp [dictErase, List.filter_cons, hpk]
      rw [hdrop, ih]
      simp [aGet, hp']
    · have hkeep : dictErase (p :: ps) k = p :: dictErase ps k := by
        simp [dictErase, List.filter_cons, hpk]
      rw [hkeep]
      by_cases hpk' : p.1 = k'
      · simp [aGet, hpk']
      · simp [aGet, hpk', ih]

theorem filter_overwrite {α : Type} (d : List (String × α)) (k : String)
    (v : α) :
    (d.map (fun p => if p.1 = k then (k, v) else p)).filter
        (fun p => ¬ p.1 = k) =
      d.filter (fun p => ¬ p.1 = k) := by
  induction d with
  | nil => rfl
  | cons p ps ih =>
    by_cases hpk : p.1 = k
    · rw [List.map_cons, if_pos hpk, List.filter_cons, List.filter_cons]
      simp only [hpk]
      simp only [decide_not]
      simpa using ih
    · rw [List.map_cons, if_neg hpk, List.filter_cons, List.filter_cons]
      simp only [decide_not]
      simp [hpk]
      simpa using ih

/-- Overwriting a key and then popping it is the same as popping it. -/
theorem dictErase_dictInsert {α : Type} (d : List (String × α)) (k : String)
    (v : α) : dictErase (dictInsert d k v) k = dictErase d k := by
  unfold dictInsert dictErase
  by_cases hany : (d.any fun q => decide (q.1 = k)) = true
  · rw [if_pos hany]
    exact filter_overwrite d k v
  · rw [if_neg hany, List.filter_append]
    simp [List.filter_cons]

theorem filter_missing_eq_nil {df : Table} {l : List String}
    (h : ∀ x ∈ l, x ∈ keysOf df) :
    l.filter (fun e => ¬ e ∈ keysOf df) = [] := by
  simp only [List.filter_eq_nil_iff]
  intro x hx
  simp [h x hx]

/-! ## C4, C5, C10: behaviour of one weave step -/

/-- C4: for every DataTransform task whose resolved required-input names are
not all present as columns of the current table, execution raises a
missing-columns error whose message lists exactly the missing resolved
names in sorted order (without duplicates), and the task body is not
invoked: every body produces the same error. -/
theorem c4_missing_columns_error (st : RunState) (go : List (String × Val))
    (opts : Optionals) (name : String) (tid : Nat) (meta : WeaveMeta)
    (nm : Dict) (rargs_m oargs_m outs_m : List String)
    (hres : resolve_effective_names meta meta._rargs meta._oargs meta._outputs
      = (nm, rargs_m, oargs_m, outs_m))
    (hmiss : ∃ x ∈ rargs_m, ¬ x ∈ keysOf st.database) :
    (∀ body, run_weave_step st go opts ⟨name, tid, meta, body⟩ =
      .error (sortStrings ((rargs_m.filter
        (fun e => ¬ e ∈ keysOf st.database)).dedup))) ∧
    (sortStrings ((rargs_m.filter
      (fun e => ¬ e ∈ keysOf st.database)).dedup)).Sorted (· ≤ ·) ∧
    (sortStrings ((rargs_m.filter
      (fun e => ¬ e ∈ keysOf st.database)).dedup)).Nodup ∧
    (∀ x, x ∈ sortStrings ((rargs_m.filter
        (fun e => ¬ e ∈ keysOf st.database)).dedup) ↔
      (x ∈ rargs_m ∧ ¬ x ∈ keysOf st.database)) := by
  have hfil : ¬ ((rargs_m.filter (fun e => ¬ e ∈ keysOf st.database)).dedup)
      = [] := by
    rcases hmiss with ⟨x, hx, hnx⟩
    intro hnil
    have hxm : x ∈ (rargs_m.filter (fun e => ¬ e ∈ keysOf st.database)).dedup := by
      rw [List.mem_dedup]
      exact List.mem_filter.mpr ⟨hx, by simp [hnx]⟩
    rw [hnil] at hxm
    cases hxm
  refine ⟨?_, sortStrings_sorted _, sortStrings_nodup (List.nodup_dedup _), ?_⟩
  · intro body
    simp only [run_weave_step, run_weave_task]
    rw [hres]
    simp only [check_intersection_columns_dataframe]
    rw [if_neg hfil]
  · intro x
    rw [mem_sortStrings, List.mem_dedup, List.mem_filter]
    simp

/-- C5: a DataTransform task that returns the no-output sentinel (`None`)
leaves the run without error, the table after the task equals the table
before it, and no lineage record for that task remains in the collector,
while every other task's record is untouched. -/
theorem c5_none_sentinel (st : RunState) (go : List (String × Val))
    (opts : Optionals) (name : String) (tid : Nat) (meta : WeaveMeta)
    (nm : Dict) (rargs_m oargs_m outs_m : List String)
    (body : List (String × Col) → List (String × Val) → List (String × Val) →
      Option CalcOutput)
    (hres : resolve_effective_names meta meta._rargs meta._oargs meta._outputs
      = (nm, rargs_m, oargs_m, outs_m))
    (hcols : ∀ x ∈ rargs_m, x ∈ keysOf st.database)
    (hbody : body (build_required_kwargs st.database meta._rargs rargs_m)
      (collect_optionals_for_task go opts name meta._oargs tid)
      meta._params = none) :
    run_weave_step st go opts ⟨name, tid, meta, body⟩ =
      .ok ⟨st.database, dictErase st.collector name⟩ ∧
    aGet name (dictErase st.collector name) = none ∧
    (∀ k, ¬ k = name →
      aGet k (dictErase st.collector name) = aGet k st.collector) := by
  have hfil : (rargs_m.filter (fun e => ¬ e ∈ keysOf st.database)).dedup
      = [] := by
    rw [filter_missing_eq_nil hcols]
    rfl
  refine ⟨?_, aGet_dictErase_self _ _, fun k hk => aGet_dictErase_ne _ _ _ hk⟩
  simp only [run_weave_step, run_weave_task]
  rw [hres]
  simp only [check_intersection_columns_dataframe]
  rw [if_pos hfil, hbody]
  dsimp only
  rw [dictErase_dictInsert]

/-- C10: a DataTransform task whose invocation returns a whole DataFrame has
that frame concatenated onto the table with its own column names unchanged
(`dump_to_frame` ignores the declared outputs for frames; name wrapping by
declared names happens only for non-frame results), while the lineage
record still lists the declared resolved output names. -/
theorem c10_frame_output (st : RunState) (go : List (String × Val))
    (opts : Optionals) (name : String) (tid : Nat) (meta : WeaveMeta)
    (nm : Dict) (rargs_m oargs_m outs_m : List String) (tb : Table)
    (body : List (String × Col) → List (String × Val) → List (String × Val) →
      Option CalcOutput)
    (hres : resolve_effective_names meta meta._rargs meta._oargs meta._outputs
      = (nm, rargs_m, oargs_m, outs_m))
    (hcols : ∀ x ∈ rargs_m, x ∈ keysOf st.database)
    (hbody : body (build_required_kwargs st.database meta._rargs rargs_m)
      (collect_optionals_for_task go opts name meta._oargs tid)
      meta._params = some (.frame tb)) :
    run_weave_step st go opts ⟨name, tid, meta, body⟩ =
      .ok ⟨st.database ++ tb,
        dictInsert st.collector name
          ⟨outs_m, rargs_m, oargs_m, meta._params.map Prod.fst⟩⟩ ∧
    (∀ outs t', dump_to_frame outs (.frame t') = t') ∧
    aGet name (dictInsert st.collector name
        ⟨outs_m, rargs_m, oargs_m, meta._params.map Prod.fst⟩) =
      some ⟨outs_m, rargs_m, oargs_m, meta._params.map Prod.fst⟩ ∧
    (∀ outs c n, n ∈ (dump_to_frame outs (.one c)).map Prod.fst → n ∈ outs) ∧
    (∀ outs cs n, n ∈ (dump_to_frame outs (.many cs)).map Prod.fst →
      n ∈ outs) := by
  have hfil : (rargs_m.filter (fun e => ¬ e ∈ keysOf st.database)).dedup
      = [] := by
    rw [filter_missing_eq_nil hcols]
    rfl
  refine ⟨?_, fun outs t' => rfl, aGet_dictInsert_self _ _ _, ?_, ?_⟩
  · simp only [run_weave_step, run_weave_task]
    rw [hres]
    simp only [check_intersection_columns_dataframe]
    rw [if_pos hfil, hbody]
    rfl
  · intro outs c n hn
    match outs with
    | [] => cases hn
    | [o] =>
      simp only [dump_to_frame, List.map_cons, List.map_nil] at hn
      rcases List.mem_singleton.mp hn with h
      rw [h]
      exact List.mem_singleton.mpr rfl
    | o1 :: o2 :: rest => cases hn
  · intro outs cs n hn
    simp only [dump_to_frame] at hn
    by_cases hlen : outs.length = 1
    · rw [if_pos hlen] at hn
      cases hn
    · rw [if_neg hlen] at hn
      rcases List.mem_map.mp hn with ⟨p, hp, hpn⟩
      have := List.of_mem_zip hp
      rw [← hpn]
      exact this.1

/-- Witness for C4: a task requiring `colA` and `colB` against a table that
only has `colA` errors out with the sorted missing list, whatever its body
computes. -/
theorem c4_missing_columns_error_witness :
    (∃ x ∈ ["colA", "colB"], ¬ x ∈ keysOf ([("colA", [1, 2])] : Table)) ∧
    run_weave_step ⟨[("colA", [1, 2])], []⟩ [] ⟨[], []⟩
        ⟨"t", 0, ⟨["colA", "colB"], [], ["out"], [], none⟩,
          fun _ _ _ => some (.one [0])⟩ =
      .error (sortStrings (((["colA", "colB"]).filter
        (fun e => ¬ e ∈ keysOf ([("colA", [1, 2])] : Table))).dedup)) :=
  ⟨by decide,
    (c4_missing_columns_error ⟨[("colA", [1, 2])], []⟩ [] ⟨[], []⟩ "t" 0
      ⟨["colA", "colB"], [], ["out"], [], none⟩ [] ["colA", "colB"] [] ["out"]
      (by decide) (by decide)).1 (fun _ _ _ => some (.one [0]))⟩

/-- Witness for C5: a task returning the sentinel leaves the table alone and
its collector entry (freshly written during the run) is popped, while a
previous task's entry survives. -/
theorem c5_none_sentinel_witness :
    (∀ x ∈ ["c1"], x ∈ keysOf ([("c1", [5])] : Table)) ∧
    run_weave_step ⟨[("c1", [5])], [("prev", ⟨["x"], [], [], []⟩)]⟩ [] ⟨[], []⟩
        ⟨"t", 0, ⟨["c1"], [], ["out"], [], none⟩, fun _ _ _ => none⟩ =
      .ok ⟨[("c1", [5])],
        dictErase [("prev", ⟨["x"], [], [], []⟩)] "t"⟩ ∧
    aGet "t" (dictErase ([("prev", (⟨["x"], [], [], []⟩ : LineageRec))]) "t")
      = none :=
  ⟨by decide,
    (c5_none_sentinel ⟨[("c1", [5])], [("prev", ⟨["x"], [], [], []⟩)]⟩ [] ⟨[], []⟩
      "t" 0 ⟨["c1"], [], ["out"], [], none⟩ [] ["c1"] [] ["out"]
      (fun _ _ _ => none) (by decide) (by decide) (by decide)).1,
    (c5_none_sentinel ⟨[("c1", [5])], [("prev", ⟨["x"], [], [], []⟩)]⟩ [] ⟨[], []⟩
      "t" 0 ⟨["c1"], [], ["out"], [], none⟩ [] ["c1"] [] ["out"]
      (fun _ _ _ => none) (by decide) (by decide) (by decide)).2.1⟩

/-- Witness for C10: a task returning a DataFrame with its own column name
`z` gets `z` concatenated verbatim while the lineage record lists the
declared output `out`. -/
theorem c10_frame_output_witness :
    (∀ x ∈ ["c1"], x ∈ keysOf ([("c1", [5])] : Table)) ∧
    run_weave_step ⟨[("c1", [5])], []⟩ [] ⟨[], []⟩
        ⟨"t", 0, ⟨["c1"], [], ["out"], [], none⟩,
          fun _ _ _ => some (.frame [("z", [9])])⟩ =
      .ok ⟨[("c1", [5])] ++ [("z", [9])],
        dictInsert [] "t" ⟨["out"], ["c1"], [], []⟩⟩ :=
  ⟨by decide,
    (c10_frame_output ⟨[("c1", [5])], []⟩ [] ⟨[], []⟩ "t" 0
      ⟨["c1"], [], ["out"], [], none⟩ [] ["c1"] [] ["out"] [("z", [9])]
      (fun _ _ _ => some (.frame [("z", [9])]))
      (by decide) (by decide) (by decide)).1⟩

/-! ## C6: effective optional arguments -/

/-- The subset of the global pipeline-level overrides whose names match the
task's optional-input names (the dict comprehension
`{oarg: global[oarg] for oarg in optional_args if oarg in global}`). -/
def globals_restricted_to (global_optionals : List (String × Val))
    (optional_args : List String) : List (String × Val) :=
  optional_args.filterMap
    (fun oarg => (aGet oarg global_optionals).map (fun v => (oarg, v)))

/-- The task-specific overrides as the code computes them:
`optionals.get(weave_name, {}) or optionals.get(weave_task, {})` — the `or`
falls through to the identity-keyed lookup whenever the by-name result is
absent *or empty*. -/
def task_specific_overrides (optionals : Optionals) (weave_name : String)
    (task_id : Nat) : List (String × Val) :=
  match aGet weave_name optionals.byName with
  | some d => if d = [] then (aGetN task_id optionals.byId).getD [] else d
  | none => (aGetN task_id optionals.byId).getD []

/-- The claim's reading of `_collect_optionals_for_task`: the task-specific
overrides are obtained by lookup under the task's name and, (only) failing
that, under the task's identity.  Written from the claim's words, to be
compared with the source translation. -/
def collect_optionals_for_task_claim (global_optionals : List (String × Val))
    (optionals : Optionals) (weave_name : String)
    (optional_args : List String) (task_id : Nat) : List (String × Val) :=
  let oargs := globals_restricted_to global_optionals optional_args
  let task_optionals :=
    match aGet weave_name optionals.byName with
    | some d => d
    | none => (aGetN task_id optionals.byId).getD []
  dictUpdate oargs task_optionals

theorem aGet_dictUpdate_nodup {α : Type} (new : List (String × α))
    (k : String) :
    (keysOf new).Nodup → ∀ base : List (String × α),
    aGet k (dictUpdate base new) =
      match aGet k new with
      | some v => some v
      | none => aGet k base := by
  induction new with
  | nil =>
    intro hnd base
    rfl
  | cons p ps ih =>
    intro hnd base
    simp only [keysOf, List.map_cons, List.nodup_cons] at hnd
    have hstep : dictUpdate base (p :: ps) =
        dictUpdate (dictInsert base p.1 p.2) ps := rfl
    rw [hstep, ih hnd.2]
    by_cases hpk : p.1 = k
    · have hnone : aGet k ps = none := by
        rw [aGet_eq_none_iff]
        intro q hq hqk
        apply hnd.1
        rw [hpk, ← hqk]
        exact List.mem_map.mpr ⟨q, hq, rfl⟩
      rw [hnone, hpk, aGet_dictInsert_self]
      simp [aGet, hpk]
    · have hne : ¬ k = p.1 := fun h => hpk h.symm
      rw [aGet_dictInsert_ne base p.1 k p.2 hne]
      have hrhs : aGet k (p :: ps) = aGet k ps := by simp [aGet, hpk]
      rw [hrhs]

theorem aGet_dictUpdate_none {α : Type} (new : List (String × α))
    (k : String) (h : aGet k new = none) :
    ∀ base : List (String × α),
    aGet k (dictUpdate base new) = aGet k base := by
  induction new with
  | nil =>
    intro base
    rfl
  | cons p ps ih =>
    intro base
    have hp : ¬ p.1 = k := by
      intro hpk
      simp [aGet, hpk] at h
    have hps : aGet k ps = none := by
      simpa [aGet, hp] using h
    have hstep : dictUpdate base (p :: ps) =
        dictUpdate (dictInsert base p.1 p.2) ps := rfl
    rw [hstep, ih hps, aGet_dictInsert_ne base p.1 k p.2 (fun hh => hp hh.symm)]

/-- C6 counterexample: with `optionals = {"t": {}, id(task): {"m": 5}}` the
code falls back to the identity-keyed overrides because the by-name entry
is empty (not absent), while the claim's forward-only fallback keeps the
empty by-name overrides — so the claim as stated fails on this input. -/
theorem c6_counterexample :
    collect_optionals_for_task [] ⟨[("t", [])], [(0, [("m", 5)])]⟩ "t" ["m"] 0
      = [("m", 5)] ∧
    collect_optionals_for_task_claim [] ⟨[("t", [])], [(0, [("m", 5)])]⟩ "t"
      ["m"] 0 = [] ∧
    ¬ collect_optionals_for_task [] ⟨[("t", [])], [(0, [("m", 5)])]⟩ "t"
        ["m"] 0 =
      collect_optionals_for_task_claim [] ⟨[("t", [])], [(0, [("m", 5)])]⟩
        "t" ["m"] 0 :=
  ⟨by decide, by decide, by decide⟩

/-- C6 (amended): the effective optionals are the restriction of the global
overrides to the task's declared optional-input names, overlaid with the
task-specific overrides obtained by lookup under the task's name — falling
back to lookup under the task's identity whenever the by-name result is
absent *or empty* — where a name occurring in both gets the task-specific
value, and a name absent from the task-specific overrides keeps its
global value. -/
theorem c6_collect_optionals_amended (global_optionals : List (String × Val))
    (optionals : Optionals) (weave_name : String)
    (optional_args : List String) (task_id : Nat) :
    collect_optionals_for_task global_optionals optionals weave_name
        optional_args task_id =
      dictUpdate (globals_restricted_to global_optionals optional_args)
        (task_specific_overrides optionals weave_name task_id) ∧
    ((keysOf (task_specific_overrides optionals weave_name task_id)).Nodup →
      ∀ k v, (k, v) ∈ task_specific_overrides optionals weave_name task_id →
        aGet k (collect_optionals_for_task global_optionals optionals
          weave_name optional_args task_id) = some v) ∧
    (∀ k, aGet k (task_specific_overrides optionals weave_name task_id)
        = none →
      aGet k (collect_optionals_for_task global_optionals optionals
          weave_name optional_args task_id) =
        aGet k (globals_restricted_to global_optionals optional_args)) := by
  have heq : collect_optionals_for_task global_optionals optionals weave_name
      optional_args task_id =
      dictUpdate (globals_restricted_to global_optionals optional_args)
        (task_specific_overrides optionals weave_name task_id) := by
    unfold collect_optionals_for_task task_specific_overrides
      globals_restricted_to
    cases hb : aGet weave_name optionals.byName with
    | none => simp [hb]
    | some d =>
      cases d with
      | nil => simp [hb]
      | cons x xs => simp [hb]
  refine ⟨heq, ?_, ?_⟩
  · intro hnd k v hkv
    rw [heq, aGet_dictUpdate_nodup _ _ hnd, aGet_of_mem hnd hkv]
  · intro k hk
    rw [heq, aGet_dictUpdate_none _ _ hk]

/-- Witness for C6 (amended) at a concrete input: the task-specific value 5
for `m` wins over the global value 1, and the global value 7 for `x`
survives the overlay. -/
theorem c6_collect_optionals_amended_witness :
    collect_optionals_for_task [("m", 1), ("x", 7)]
        ⟨[("t", [("m", 5)])], []⟩ "t" ["m", "x"] 0 =
      dictUpdate (globals_restricted_to [("m", 1), ("x", 7)] ["m", "x"])
        (task_specific_overrides ⟨[("t", [("m", 5)])], []⟩ "t" 0) ∧
    aGet "m" (collect_optionals_for_task [("m", 1), ("x", 7)]
      ⟨[("t", [("m", 5)])], []⟩ "t" ["m", "x"] 0) = some 5 ∧
    aGet "x" (collect_optionals_for_task [("m", 1), ("x", 7)]
      ⟨[("t", [("m", 5)])], []⟩ "t" ["m", "x"] 0) =
      aGet "x" (globals_restricted_to [("m", 1), ("x", 7)] ["m", "x"]) :=
  ⟨(c6_collect_optionals_amended [("m", 1), ("x", 7)]
      ⟨[("t", [("m", 5)])], []⟩ "t" ["m", "x"] 0).1,
   (c6_collect_optionals_amended [("m", 1), ("x", 7)]
      ⟨[("t", [("m", 5)])], []⟩ "t" ["m", "x"] 0).2.1 (by decide) "m" 5
      (by decide),
   (c6_collect_optionals_amended [("m", 1), ("x", 7)]
      ⟨[("t", [("m", 5)])], []⟩ "t" ["m", "x"] 0).2.2 "x" (by decide)⟩

/-! ## C8: `_get_function_args` (src/weaveflow/_utils/inspect.py 25-69) -/

/-- A Python callable's signature: parameter names in declaration order,
flagged `true` when the parameter carries a default value. -/
abbrev Signature := List (String × Bool)

/-- The parameter names without a default, in order. -/
def requiredNames (sig : Signature) : List String :=
  (sig.filter (fun p => p.2 = false)).map Prod.fst

/-- The parameter names with a default, in order. -/
def optionalNames (sig : Signature) : List String :=
  (sig.filter (fun p => p.2 = true)).map Prod.fst

/-- Model of `_get_function_args(f, nrargs)`: split the signature into required and
optional names; reject a negative `nrargs`; then — only under
`nrargs > 0` — reject any optional parameter, require at least `nrargs`
required parameters, and truncate to the first `nrargs` of them
(`nrargs == 0` skips that whole block).  The non-integer `nrargs` check is
a type error not representable here.  Error payloads abbreviate the Python
messages. -/
def _get_function_args (sig : Signature) (nrargs : Option Int) :
    Except String (List String × List String) :=
  match nrargs with
  | none => .ok (requiredNames sig, optionalNames sig)
  | some n =>
    if n < 0 then
      .error "Argument nrargs must be a non-negative integer."
    else
      let required := requiredNames sig
      let optional := optionalNames sig
      if 0 < n then
        if ¬ optional = [] then
          .error "Function has optional arguments, but nrargs is specified."
        else if (required.length : Int) < n then
          .error "Function requires at least nrargs inputs."
        else
          .ok (required.take n.toNat, optional.drop n.toNat)
      else
        .ok (required, optional)

/-- C8 counterexample: at `nrargs = 0` the code accepts a callable that has
an optional parameter (the claim demands rejection in that case) and
returns the full required list rather than the first zero parameter
names. -/
theorem c8_counterexample :
    _get_function_args [("a", false), ("b", true)] (some 0) =
      .ok (["a"], ["b"]) ∧
    ¬ optionalNames [("a", false), ("b", true)] = [] ∧
    ¬ (["a"] : List String) =
      (requiredNames [("a", false), ("b", true)]).take (Int.toNat 0) :=
  ⟨rfl, by decide, by decide⟩

/-- C8 (amended): a negative `required_count` is rejected; with a
*positive* `required_count`, registration fails unless the callable has
zero optional parameters and at least `required_count` required
parameters, and on success the required inputs are the first
`required_count` parameter names (with no optionals); `required_count = 0`
is accepted with the signature split unchanged — the zero-optional
requirement and the truncation do not apply to it. -/
theorem c8_required_count_amended (sig : Signature) (n : Int) :
    (n < 0 → _get_function_args sig (some n) =
      .error "Argument nrargs must be a non-negative integer.") ∧
    (0 < n → ¬ optionalNames sig = [] → _get_function_args sig (some n) =
      .error "Function has optional arguments, but nrargs is specified.") ∧
    (0 < n → optionalNames sig = [] →
      ((requiredNames sig).length : Int) < n →
      _get_function_args sig (some n) =
        .error "Function requires at least nrargs inputs.") ∧
    (0 < n → optionalNames sig = [] →
      n ≤ ((requiredNames sig).length : Int) →
      _get_function_args sig (some n) =
        .ok ((requiredNames sig).take n.toNat, [])) ∧
    (_get_function_args sig (some 0) =
      .ok (requiredNames sig, optionalNames sig)) := by
  refine ⟨?_, ?_, ?_, ?_, ?_⟩
  · intro hneg
    simp only [_get_function_args]
    rw [if_pos hneg]
  · intro hpos hopt
    simp only [_get_function_args]
    rw [if_neg (by omega : ¬ n < 0), if_pos hpos, if_pos hopt]
  · intro hpos hopt hlen
    simp only [_get_function_args]
    rw [if_neg (by omega : ¬ n < 0), if_pos hpos,
      if_neg (by simp [hopt]), if_pos hlen]
  · intro hpos hopt hlen
    simp only [_get_function_args]
    rw [if_neg (by omega : ¬ n < 0), if_pos hpos,
      if_neg (by simp [hopt]), if_neg (not_lt.mpr hlen), hopt,
      List.drop_nil]
  · simp only [_get_function_args]
    rw [if_neg (by omega : ¬ (0 : Int) < 0),
      if_neg (by omega : ¬ (0 : Int) < 0)]

/-- Witness for C8 (amended): a three-required-parameter callable with
`nrargs = 2` keeps the first two parameter names as required inputs. -/
theorem c8_required_count_amended_witness :
    (0 : Int) < 2 ∧
    _get_function_args [("a", false), ("b", false), ("c", false)] (some 2) =
      .ok (["a", "b"], []) :=
  ⟨by decide, by
    rw [(c8_required_count_amended
      [("a", false), ("b", false), ("c", false)] 2).2.2.2.1
      (by decide) (by decide) (by decide)]
    rfl⟩

/-! ## C9: `WeaveMatrix.build` (src/weaveflow/core/_matrix.py 63-107)

The matrix consumes the collector records
(`task_name -> {"outputs", "rargs", "oargs", "params"}`), so the task
collection is a `Collector`; an absent field reads as the empty list via
`meta.get(key, []) or []`. -/

namespace WeaveMatrix

/-- The cell value for one argument row under one task column, with the
source's precedence chain. -/
def cellValue (meta : LineageRec) (arg : String) : String :=
  let is_req := arg ∈ meta.rargs
  let is_opt := arg ∈ meta.oargs
  let is_out := arg ∈ meta.outputs
  if is_req ∧ is_out then "required input / Output"
  else if is_opt ∧ is_out then "optional input / Output"
  else if is_req then "required input"
  else if is_opt then "optional input"
  else if is_out then "Output"
  else ""

/-- The row labels: every name appearing as a required input, optional
input or output of some task (`row_names` accumulated as a set, then
`sorted`). -/
def rowNames (tasks : Collector) : List String :=
  sortStrings ((tasks.foldr
    (fun p acc => p.2.rargs ++ p.2.oargs ++ p.2.outputs ++ acc) []).dedup)

/-- The column labels: `sorted(self._tasks.keys())`. -/
def colNames (tasks : Collector) : List String :=
  sortStrings ((tasks.map Prod.fst).dedup)

/-- Model of `WeaveMatrix.build`: rows, columns, and the column-wise data
`task_name -> [cell value per row]` (with
`meta = self._tasks.get(task_name, {})`).  The pandas special case for the
no-rows-no-columns input returns the same empty triple here. -/
def build (tasks : Collector) :
    List String × List String × List (String × List String) :=
  let rows := rowNames tasks
  let cols := colNames tasks
  (rows, cols,
    cols.map (fun task_name =>
      (task_name,
        rows.map (cellValue ((aGet task_name tasks).getD ⟨[], [], [], []⟩)))))

end WeaveMatrix

theorem aGet_map_pair {β : Type} (g : String → β) (l : List String)
    (k : String) (hk : k ∈ l) :
    aGet k (l.map (fun c => (c, g c))) = some (g k) := by
  induction l with
  | nil => cases hk
  | cons c cs ih =>
    by_cases hck : c = k
    · subst hck
      simp [aGet]
    · rcases List.mem_cons.mp hk with h | h
      · exact absurd h.symm hck
      · simp [aGet, hck, ih h]

theorem mem_row_union (tasks : Collector) (x : String) :
    (x ∈ tasks.foldr
        (fun p acc => p.2.rargs ++ p.2.oargs ++ p.2.outputs ++ acc) []) ↔
      ∃ p ∈ tasks, x ∈ p.2.rargs ∨ x ∈ p.2.oargs ∨ x ∈ p.2.outputs := by
  induction tasks with
  | nil => simp
  | cons p ps ih =>
    simp only [List.foldr_cons, List.mem_append, ih, List.mem_cons]
    constructor
    · rintro (((h | h) | h) | ⟨q, hq, hcase⟩)
      · exact ⟨p, Or.inl rfl, Or.inl h⟩
      · exact ⟨p, Or.inl rfl, Or.inr (Or.inl h)⟩
      · exact ⟨p, Or.inl rfl, Or.inr (Or.inr h)⟩
      · exact ⟨q, Or.inr hq, hcase⟩
    · rintro ⟨q, hq | hq, hcase⟩
      · subst hq
        rcases hcase with h | h | h
        · exact Or.inl (Or.inl (Or.inl h))
        · exact Or.inl (Or.inl (Or.inr h))
        · exact Or.inl (Or.inr h)
      · exact Or.inr ⟨q, hq, hcase⟩

/-- C9: for a valid task collection (a dict: distinct task names), the
dependency matrix has rows equal to the sorted union of all names appearing
as required inputs, optional inputs, or outputs; columns equal to the
sorted task names; each task's data column applies the cell-precedence
chain of the claim to every row; and the empty collection yields the
structurally empty table. -/
theorem c9_weave_matrix (tasks : Collector)
    (hnd : (tasks.map Prod.fst).Nodup) :
    (WeaveMatrix.build tasks).1.Sorted (· ≤ ·) ∧
    (WeaveMatrix.build tasks).1.Nodup ∧
    (∀ x, x ∈ (WeaveMatrix.build tasks).1 ↔
      ∃ p ∈ tasks, x ∈ p.2.rargs ∨ x ∈ p.2.oargs ∨ x ∈ p.2.outputs) ∧
    (WeaveMatrix.build tasks).2.1.Sorted (· ≤ ·) ∧
    (WeaveMatrix.build tasks).2.1.Nodup ∧
    (∀ c, c ∈ (WeaveMatrix.build tasks).2.1 ↔ c ∈ tasks.map Prod.fst) ∧
    (∀ name rec, (name, rec) ∈ tasks →
      aGet name (WeaveMatrix.build tasks).2.2 =
        some ((WeaveMatrix.build tasks).1.map (WeaveMatrix.cellValue rec))) ∧
    (∀ rec arg, WeaveMatrix.cellValue rec arg =
      if arg ∈ rec.rargs ∧ arg ∈ rec.outputs then "required input / Output"
      else if arg ∈ rec.oargs ∧ arg ∈ rec.outputs then
        "optional input / Output"
      else if arg ∈ rec.rargs then "required input"
      else if arg ∈ rec.oargs then "optional input"
      else if arg ∈ rec.outputs then "Output"
      else "") ∧
    WeaveMatrix.build [] = ([], [], []) := by
  refine ⟨sortStrings_sorted _, sortStrings_nodup (List.nodup_dedup _), ?_,
    sortStrings_sorted _, sortStrings_nodup (List.nodup_dedup _), ?_,
    ?_, fun rec arg => rfl, rfl⟩
  · intro x
    show x ∈ WeaveMatrix.rowNames tasks ↔ _
    rw [WeaveMatrix.rowNames, mem_sortStrings, List.mem_dedup, mem_row_union]
  · intro c
    show c ∈ WeaveMatrix.colNames tasks ↔ _
    rw [WeaveMatrix.colNames, mem_sortStrings, List.mem_dedup]
  · intro name rec hmem
    have hname : name ∈ WeaveMatrix.colNames tasks := by
      rw [WeaveMatrix.colNames, mem_sortStrings, List.mem_dedup]
      exact List.mem_map.mpr ⟨(name, rec), hmem, rfl⟩
    have hget : aGet name tasks = some rec := aGet_of_mem hnd hmem
    show aGet name ((WeaveMatrix.colNames tasks).map
        (fun task_name => (task_name, (WeaveMatrix.rowNames tasks).map
          (WeaveMatrix.cellValue ((aGet task_name tasks).getD
            ⟨[], [], [], []⟩))))) = _
    rw [aGet_map_pair (fun task_name => (WeaveMatrix.rowNames tasks).map
      (WeaveMatrix.cellValue ((aGet task_name tasks).getD ⟨[], [], [], []⟩)))
      (WeaveMatrix.colNames tasks) name hname]
    rw [hget]
    rfl

/-- Witness for C9: the spec's concrete scenario — one task with required
inputs `a`, `b` and output `c` — has its column equal to the cell values at
the sorted rows. -/
theorem c9_weave_matrix_witness :
    (([("t1", (⟨["c"], ["a", "b"], [], []⟩ : LineageRec))]).map
      Prod.fst).Nodup ∧
    aGet "t1" (WeaveMatrix.build
        [("t1", ⟨["c"], ["a", "b"], [], []⟩)]).2.2 =
      some ((WeaveMatrix.build [("t1", ⟨["c"], ["a", "b"], [], []⟩)]).1.map
        (WeaveMatrix.cellValue ⟨["c"], ["a", "b"], [], []⟩)) :=
  ⟨by decide,
    (c9_weave_matrix [("t1", ⟨["c"], ["a", "b"], [], []⟩)]
      (by decide)).2.2.2.2.2.2.1 "t1" ⟨["c"], ["a", "b"], [], []⟩
      (by decide)⟩

/-! ## C3: `reweave` defensive copy (src/weaveflow/_decorators/weave.py
119-146), with an explicit heap of dict objects to express aliasing -/

/-- A heap of mutable Python dict objects, addressed by object identity;
`next` is the first unused address. -/
structure Heap where
  mem : Nat → Dict
  next : Nat

/-- Read a dict object. -/
def Heap.get (h : Heap) (r : Nat) : Dict := h.mem r

/-- Mutate a dict object in place (what a caller does to its own mapping
after deriving). -/
def Heap.write (h : Heap) (r : Nat) (d : Dict) : Heap :=
  { h with mem := fun r' => if r' = r then d else h.mem r' }

/-- Allocate a fresh dict object with the given contents. -/
def Heap.alloc (h : Heap) (d : Dict) : Nat × Heap :=
  (h.next, ⟨fun r' => if r' = h.next then d else h.mem r', h.next + 1⟩)

/-- Variant of `WeaveMeta` with `_meta_mapping` held by reference, as the Python
attribute holds a pointer to a dict object. -/
structure WeaveMetaRef where
  _rargs : List String
  _oargs : List String
  _outputs : List String
  _params : List (String × Val)
  _meta_mapping : Option Nat

/-- Model of `reweave(f, meta)` for a dict `meta` passed by reference: read the
caller's dict, allocate a fresh object holding a copy of its current
contents (`dict(meta)`), and build the derived descriptor
`replace(weave_meta, _meta_mapping=...)` with every other field unchanged;
no existing object is written (the original callable keeps its own
`_weave_meta`, the wrapper gets the new one). -/
def reweaveH (h : Heap) (f_meta : WeaveMetaRef) (mref : Nat) :
    WeaveMetaRef × Heap :=
  let d := h.get mref
  let ah := h.alloc d
  ({ f_meta with _meta_mapping := some ah.1 }, ah.2)

/-- C3: deriving via `reweave` returns a descriptor identical to the input
except that the name mapping is a fresh copy of the supplied mapping;
subsequent mutation of the caller's mapping object (or of any other
pre-existing object) never changes the derived descriptor's stored mapping,
and no pre-existing object — the original descriptor's state included — is
mutated by the derivation. -/
theorem c3_reweave_defensive_copy (h : Heap) (f_meta : WeaveMetaRef)
    (mref : Nat) (href : mref < h.next) :
    (reweaveH h f_meta mref).1._rargs = f_meta._rargs ∧
    (reweaveH h f_meta mref).1._oargs = f_meta._oargs ∧
    (reweaveH h f_meta mref).1._outputs = f_meta._outputs ∧
    (reweaveH h f_meta mref).1._params = f_meta._params ∧
    (reweaveH h f_meta mref).1._meta_mapping = some h.next ∧
    (reweaveH h f_meta mref).2.get h.next = h.get mref ∧
    ¬ mref = h.next ∧
    (∀ r, r < h.next → (reweaveH h f_meta mref).2.get r = h.get r) ∧
    (∀ r d, ¬ r = h.next →
      ((reweaveH h f_meta mref).2.write r d).get h.next =
        (reweaveH h f_meta mref).2.get h.next) := by
  refine ⟨rfl, rfl, rfl, rfl, rfl, ?_, ?_, ?_, ?_⟩
  · show (if h.next = h.next then h.get mref else h.mem h.next) = h.get mref
    rw [if_pos rfl]
  · omega
  · intro r hr
    show (if r = h.next then h.get mref else h.mem r) = h.get r
    rw [if_neg (by omega)]
    rfl
  · intro r d hr
    show (if h.next = r then d
      else if h.next = h.next then h.get mref else h.mem h.next) = _
    rw [if_neg (fun hh => hr hh.symm), if_pos rfl]
    show _ = (if h.next = h.next then h.get mref else h.mem h.next)
    rw [if_pos rfl]

/-- Witness for C3 at a one-object heap: the derived mapping is the copy at
the fresh address 1, surviving a later write to the caller's dict at 0. -/
theorem c3_reweave_defensive_copy_witness :
    (0 : Nat) < 1 ∧
    (reweaveH ⟨fun r => if r = 0 then [("a", "x")] else [], 1⟩
        ⟨["a"], [], ["s"], [], none⟩ 0).1._meta_mapping = some 1 ∧
    (reweaveH ⟨fun r => if r = 0 then [("a", "x")] else [], 1⟩
        ⟨["a"], [], ["s"], [], none⟩ 0).2.get 1 =
      Heap.get ⟨fun r => if r = 0 then [("a", "x")] else [], 1⟩ 0 ∧
    ((reweaveH ⟨fun r => if r = 0 then [("a", "x")] else [], 1⟩
        ⟨["a"], [], ["s"], [], none⟩ 0).2.write 0 [("a", "CHANGED")]).get 1 =
      (reweaveH ⟨fun r => if r = 0 then [("a", "x")] else [], 1⟩
        ⟨["a"], [], ["s"], [], none⟩ 0).2.get 1 :=
  ⟨by decide,
    (c3_reweave_defensive_copy ⟨fun r => if r = 0 then [("a", "x")] else [], 1⟩
      ⟨["a"], [], ["s"], [], none⟩ 0 (by decide)).2.2.2.2.1,
    (c3_reweave_defensive_copy ⟨fun r => if r = 0 then [("a", "x")] else [], 1⟩
      ⟨["a"], [], ["s"], [], none⟩ 0 (by decide)).2.2.2.2.2.1,
    (c3_reweave_defensive_copy ⟨fun r => if r = 0 then [("a", "x")] else [], 1⟩
      ⟨["a"], [], ["s"], [], none⟩ 0 (by decide)).2.2.2.2.2.2.2.2 0
      [("a", "CHANGED")] (by decide)⟩

/-! ## C7: `weave` registration and `ParamsFromIsNotASpoolError`
(src/weaveflow/_decorators/weave.py 42-116, _errors/_spool.py 19-42) -/

/-- An object passed as `params_from`: constructing it with no arguments
exposes attributes (its `__dict__`), and it may or may not actually carry
the `@spool` capability. -/
structure ParamsSource where
  is_spool : Bool
  attrs : List (String × Val)

/-- The `outputs` argument: a string or a list of strings. -/
inductive OutputsArg where
  | str (s : String)
  | list (l : List String)

/-- The `weave` decorator applied to a not-yet-decorated callable with
signature `sig`: reject `params_from` together with `nrargs`; then the line
`ParamsFromIsNotASpoolError(params_from)` merely *constructs* the exception
object and discards it — nothing is raised, and `is_spool` is never
consulted (the class's own `__init__` even tests `object is not None`,
which is always true, instead of the passed argument, and performs no spool
check either); normalize `outputs`; split the signature; capture the
attribute mapping once and drop its keys from the required inputs. -/
def weave_register (outputs : OutputsArg) (nrargs : Option Int)
    (params_from : Option ParamsSource) (sig : Signature) :
    Except String WeaveMeta :=
  if params_from.isSome ∧ nrargs.isSome then
    .error "Cannot use nrargs and params_from at the same time."
  else
    let outs := match outputs with
      | .str s => [s]
      | .list l => l
    match _get_function_args sig nrargs with
    | .error e => .error e
    | .ok (required_args, optional_args) =>
      let params := (params_from.map (fun p => p.attrs)).getD []
      .ok ⟨required_args.filter (fun arg => ¬ arg ∈ params.map Prod.fst),
        optional_args, outs, params, none⟩

/-- C7: registration with a `params_from` object that does not carry the
spool capability does *not* signal `NotASpoolError` — it succeeds, injecting
the object's attributes and removing their names from the required inputs —
and the outcome never depends on the `is_spool` capability flag at all. -/
theorem c7_not_a_spool_error_never_raised :
    weave_register (.str "y") none
        (some ⟨false, [("p", 3)]⟩) [("x", false), ("p", false)] =
      .ok ⟨["x"], [], ["y"], [("p", 3)], none⟩ ∧
    (∀ b1 b2 attrs nrargs outputs sig,
      weave_register outputs nrargs (some ⟨b1, attrs⟩) sig =
        weave_register outputs nrargs (some ⟨b2, attrs⟩) sig) := by
  constructor
  · rfl
  · intro b1 b2 attrs nrargs outputs sig
    rfl

/-! ## C2: renaming equivalence -/

theorem aGet_cons {α : Type} (k : String) (q : String × α)
    (qs : List (String × α)) :
    aGet k (q :: qs) = if q.1 = k then some q.2 else aGet k qs := rfl

theorem map_snd_zip_eq_take {α β : Type} (l1 : List α) (l2 : List β) :
    (l1.zip l2).map Prod.snd = l2.take l1.length := by
  induction l1 generalizing l2 with
  | nil => simp
  | cons a l1 ih =>
    cases l2 with
    | nil => simp
    | cons b l2 => simp [ih]

theorem keysOf_renameCols (m : Dict) (db : Table) :
    keysOf (renameCols m db) = (keysOf db).map (fwdName m) := by
  unfold keysOf renameCols
  rw [List.map_map, List.map_map]
  rfl

theorem renameCols_map_snd (m : Dict) (db : Table) :
    (renameCols m db).map Prod.snd = db.map Prod.snd := by
  unfold renameCols
  rw [List.map_map]
  rfl

theorem aGet_renameCols (m : Dict) (db : Table)
    (hinj : ∀ n1 ∈ keysOf db, ∀ n2 ∈ keysOf db,
      fwdName m n1 = fwdName m n2 → n1 = n2) :
    ∀ n, n ∈ keysOf db →
      aGet (fwdName m n) (renameCols m db) = aGet n db := by
  induction db with
  | nil =>
    intro n hn
    cases hn
  | cons p ps ih =>
    intro n hn
    have hk : keysOf (p :: ps) = p.1 :: keysOf ps := rfl
    have hstep : renameCols m (p :: ps) =
        (fwdName m p.1, p.2) :: renameCols m ps := rfl
    rw [hstep, aGet_cons, aGet_cons]
    by_cases hpn : p.1 = n
    · rw [if_pos (by rw [hpn] : fwdName m p.1 = fwdName m n), if_pos hpn]
    · have hpmem : p.1 ∈ keysOf (p :: ps) := by
        rw [hk]
        exact List.mem_cons_self _ _
      have hnps : n ∈ keysOf ps := by
        rw [hk] at hn
        rcases List.mem_cons.mp hn with h | h
        · exact absurd h.symm hpn
        · exact h
      have hne : ¬ fwdName m p.1 = fwdName m n := by
        intro he
        exact hpn (hinj p.1 hpmem n hn he)
      have hinj' : ∀ n1 ∈ keysOf ps, ∀ n2 ∈ keysOf ps,
          fwdName m n1 = fwdName m n2 → n1 = n2 := by
        intro n1 h1 n2 h2
        exact hinj n1 (by rw [hk]; exact List.mem_cons_of_mem _ h1)
          n2 (by rw [hk]; exact List.mem_cons_of_mem _ h2)
      rw [if_neg hne, if_neg hpn]
      exact ih hinj' n hnps

theorem build_required_kwargs_rename (m : Dict) (db : Table)
    (hinj : ∀ n1 ∈ keysOf db, ∀ n2 ∈ keysOf db,
      fwdName m n1 = fwdName m n2 → n1 = n2) :
    ∀ rargs : List String, (∀ a ∈ rargs, a ∈ keysOf db) →
      build_required_kwargs (renameCols m db) rargs
          (rargs.map (fwdName m)) =
        build_required_kwargs db rargs rargs := by
  intro rargs
  induction rargs with
  | nil =>
    intro _
    rfl
  | cons a as ih =>
    intro hcols
    have hstep1 : (a :: as).zip ((a :: as).map (fwdName m)) =
        (a, fwdName m a) :: as.zip (as.map (fwdName m)) := rfl
    have hstep2 : (a :: as).zip (a :: as) = (a, a) :: as.zip as := rfl
    unfold build_required_kwargs at ih ⊢
    rw [hstep1, hstep2, List.map_cons, List.map_cons,
      aGet_renameCols m db hinj a (hcols a (List.mem_cons_self a as)),
      ih (fun x hx => hcols x (List.mem_cons_of_mem a hx))]

theorem dump_to_frame_map_snd (outs : List String) (f : String → String)
    (out : CalcOutput) :
    (dump_to_frame (outs.map f) out).map Prod.snd =
      (dump_to_frame outs out).map Prod.snd := by
  cases out with
  | frame t => rfl
  | one c =>
    match outs with
    | [] => rfl
    | [o] => rfl
    | o1 :: o2 :: r => rfl
  | many cs =>
    by_cases hlen : outs.length = 1
    · simp [dump_to_frame, List.length_map, hlen]
    · simp [dump_to_frame, List.length_map, hlen,
        map_snd_zip_eq_take]

theorem resolve_effective_names_none (meta : WeaveMeta)
    (hmap : meta._meta_mapping = none)
    (r o u : List String) :
    resolve_effective_names meta r o u = ([], r, o, u) := by
  unfold resolve_effective_names
  rw [hmap]
  simp [aGet, invDict]

/-- Evaluation of one weave step when all resolved required columns are
present: the result is determined by the body's output. -/
theorem run_weave_step_eval (db : Table) (c : Collector)
    (go : List (String × Val)) (opts : Optionals)
    (name : String) (tid : Nat) (meta : WeaveMeta)
    (body : List (String × Col) → List (String × Val) → List (String × Val) →
      Option CalcOutput)
    (nm : Dict) (rargs_m oargs_m outs_m : List String)
    (hres : resolve_effective_names meta meta._rargs meta._oargs meta._outputs
      = (nm, rargs_m, oargs_m, outs_m))
    (hfil : (rargs_m.filter (fun e => ¬ e ∈ keysOf db)).dedup = []) :
    run_weave_step ⟨db, c⟩ go opts ⟨name, tid, meta, body⟩ =
      match body (build_required_kwargs db meta._rargs rargs_m)
          (collect_optionals_for_task go opts name meta._oargs tid)
          meta._params with
      | none => .ok ⟨db, dictErase (dictInsert c name
          ⟨outs_m, rargs_m, oargs_m, meta._params.map Prod.fst⟩) name⟩
      | some out => .ok ⟨db ++ dump_to_frame outs_m out,
          dictInsert c name
            ⟨outs_m, rargs_m, oargs_m, meta._params.map Prod.fst⟩⟩ := by
  simp only [run_weave_step, run_weave_task]
  rw [hres]
  simp only [check_intersection_columns_dataframe]
  rw [if_pos hfil]

/-- C2: deriving a renamed version of a deterministic DataTransform task
via `reweave` and running it against a table whose columns carry the
renamed names produces a result table (and new columns) whose column
values, in order, equal those of running the unmodified task against the
originally-named table — equal up to column names.  The hypotheses say the
renaming is a proper one: the task has no prior mapping, forward resolution
is not shadowed by accidental inverse hits, the required columns exist, the
renaming does not collide two existing columns, and the derived callable
(a fresh object with the same `__name__`) resolves to the same optional
overrides. -/
theorem c2_reweave_run_equivalence (db : Table) (c1 c2 : Collector)
    (go : List (String × Val)) (opts : Optionals)
    (name : String) (tid tid' : Nat) (meta : WeaveMeta) (m : Dict)
    (body : List (String × Col) → List (String × Val) → List (String × Val) →
      Option CalcOutput)
    (hmap : meta._meta_mapping = none)
    (hfwd : ∀ a ∈ meta._rargs,
      (aGet a m).getD ((aGet a (invDict m)).getD a) = fwdName m a)
    (hcols : ∀ a ∈ meta._rargs, a ∈ keysOf db)
    (hinj : ∀ n1 ∈ keysOf db, ∀ n2 ∈ keysOf db,
      fwdName m n1 = fwdName m n2 → n1 = n2)
    (hopt : collect_optionals_for_task go opts name meta._oargs tid' =
      collect_optionals_for_task go opts name meta._oargs tid) :
    ∃ st1 st2 : RunState,
      run_weave_step ⟨db, c1⟩ go opts ⟨name, tid, meta, body⟩ = .ok st1 ∧
      run_weave_step ⟨renameCols m db, c2⟩ go opts
        (reweave ⟨name, tid, meta, body⟩ (some m) tid') = .ok st2 ∧
      st2.database.map Prod.snd = st1.database.map Prod.snd := by
  have hres1 : resolve_effective_names meta meta._rargs meta._oargs
      meta._outputs = ([], meta._rargs, meta._oargs, meta._outputs) :=
    resolve_effective_names_none meta hmap _ _ _
  have hres2 : resolve_effective_names { meta with _meta_mapping := some m }
      meta._rargs meta._oargs meta._outputs =
      (m, meta._rargs.map (fwdName m),
        meta._oargs.map
          (fun o => (aGet o m).getD ((aGet o (invDict m)).getD o)),
        meta._outputs.map (fwdName m)) := by
    have h1 : meta._rargs.map
        (fun a => (aGet a m).getD ((aGet a (invDict m)).getD a)) =
        meta._rargs.map (fwdName m) := List.map_congr_left hfwd
    unfold resolve_effective_names
    rw [show ({ meta with _meta_mapping := some m } : WeaveMeta)._meta_mapping
      = some m from rfl]
    simp only [Option.getD_some]
    rw [show ({ meta with _meta_mapping := some m } : WeaveMeta)._rargs
      = meta._rargs from rfl]
    rw [h1]
    rfl
  have hfil1 : (meta._rargs.filter (fun e => ¬ e ∈ keysOf db)).dedup = [] := by
    rw [filter_missing_eq_nil hcols]
    rfl
  have hcols2 : ∀ x ∈ meta._rargs.map (fwdName m),
      x ∈ keysOf (renameCols m db) := by
    intro x hx
    rcases List.mem_map.mp hx with ⟨a, ha, rfl⟩
    rw [keysOf_renameCols]
    exact List.mem_map.mpr ⟨a, hcols a ha, rfl⟩
  have hfil2 : ((meta._rargs.map (fwdName m)).filter
      (fun e => ¬ e ∈ keysOf (renameCols m db))).dedup = [] := by
    rw [filter_missing_eq_nil hcols2]
    rfl
  have hder : reweave ⟨name, tid, meta, body⟩ (some m) tid' =
      ⟨name, tid', { meta with _meta_mapping := some m }, body⟩ := rfl
  have hkw : build_required_kwargs (renameCols m db) meta._rargs
      (meta._rargs.map (fwdName m)) =
      build_required_kwargs db meta._rargs meta._rargs :=
    build_required_kwargs_rename m db hinj meta._rargs hcols
  have hrun1 := run_weave_step_eval db c1 go opts name tid meta body
    [] meta._rargs meta._oargs meta._outputs hres1 hfil1
  have hrun2 := run_weave_step_eval (renameCols m db) c2 go opts name tid'
    { meta with _meta_mapping := some m } body
    m (meta._rargs.map (fwdName m))
    (meta._oargs.map (fun o => (aGet o m).getD ((aGet o (invDict m)).getD o)))
    (meta._outputs.map (fwdName m)) hres2 hfil2
  rw [show ({ meta with _meta_mapping := some m } : WeaveMeta)._rargs
    = meta._rargs from rfl,
    show ({ meta with _meta_mapping := some m } : WeaveMeta)._oargs
    = meta._oargs from rfl,
    show ({ meta with _meta_mapping := some m } : WeaveMeta)._params
    = meta._params from rfl,
    hkw, hopt] at hrun2
  rw [hder]
  cases hout : body (build_required_kwargs db meta._rargs meta._rargs)
      (collect_optionals_for_task go opts name meta._oargs tid)
      meta._params with
  | none =>
    rw [hout] at hrun1 hrun2
    refine ⟨_, _, hrun1, hrun2, ?_⟩
    exact renameCols_map_snd m db
  | some out =>
    rw [hout] at hrun1 hrun2
    refine ⟨_, _, hrun1, hrun2, ?_⟩
    show (renameCols m db ++
        dump_to_frame (meta._outputs.map (fwdName m)) out).map Prod.snd =
      (db ++ dump_to_frame meta._outputs out).map Prod.snd
    rw [List.map_append, List.map_append, renameCols_map_snd,
      dump_to_frame_map_snd]

/-- Witness for C2: a one-column task renamed by `a -> x`, `s -> z` and run
on the renamed table yields the same column values as the original run. -/
theorem c2_reweave_run_equivalence_witness :
    (∀ a ∈ ["a"], a ∈ keysOf ([("a", [1, 2])] : Table)) ∧
    ∃ st1 st2 : RunState,
      run_weave_step ⟨[("a", [1, 2])], []⟩ [] ⟨[], []⟩
        ⟨"t", 0, ⟨["a"], [], ["s"], [], none⟩,
          fun k _ _ => some (.one ((aGet "a" k).getD []))⟩ = .ok st1 ∧
      run_weave_step ⟨renameCols [("a", "x"), ("s", "z")] [("a", [1, 2])], []⟩
        [] ⟨[], []⟩
        (reweave ⟨"t", 0, ⟨["a"], [], ["s"], [], none⟩,
          fun k _ _ => some (.one ((aGet "a" k).getD []))⟩
          (some [("a", "x"), ("s", "z")]) 1) = .ok st2 ∧
      st2.database.map Prod.snd = st1.database.map Prod.snd :=
  ⟨by decide,
    c2_reweave_run_equivalence [("a", [1, 2])] [] [] [] ⟨[], []⟩ "t" 0 1
      ⟨["a"], [], ["s"], [], none⟩ [("a", "x"), ("s", "z")]
      (fun k _ _ => some (.one ((aGet "a" k).getD [])))
      (by decide) (by decide) (by decide) (by decide) (by decide)⟩

end Weaveflow
